import Mathlib

/-!
Verification of the recipe/tag/ingredient core of the recipe-app-api
repository: a shallow embedding of the serializer and view logic of
src/app/recipe/serializers.py and src/app/recipe/views.py, together with
theorems settling the specification claims.

The entity store (Django ORM tables for Recipe, Tag, Ingredient) is
embedded as lists of records with explicit next-id counters; the
many-to-many relation sets are lists of record ids with set semantics
on insertion (the ORM join table never duplicates a pair).  Monetary
amounts (a fixed-point Decimal in the source) are embedded as integers
in the smallest currency unit; nothing in the verified logic inspects
the amount, so the choice is inert.
-/

set_option autoImplicit false

namespace RecipeApp

/-- An opaque user identity (the authenticated owner of records). -/
abbrev UserId := Nat

/-- Shape shared by the Tag and Ingredient models of core.models:
an id, an owner, and a name.
Modelled from the spec: core/models.py is not among the provided source
files; section 3 of the spec gives Tag as an id, a name and an owner,
and Ingredient as the same shape. -/
structure NamedRecord where
  id : Nat
  user : UserId
  name : String
  deriving DecidableEq, Repr

/-- The Tag model. -/
abbrev Tag := NamedRecord

/-- The Ingredient model. -/
abbrev Ingredient := NamedRecord

/-- The Recipe model.
Modelled from the spec: core/models.py is not among the provided source
files; section 3 of the spec gives Recipe as id, title, time_minutes,
price, link, description, owner, and many-to-many tag and ingredient
sets.  The relation sets are kept as lists of record ids. -/
structure Recipe where
  id : Nat
  user : UserId
  title : String
  time_minutes : Nat
  price : Int
  link : String
  description : String
  tags : List Nat
  ingredients : List Nat
  deriving DecidableEq, Repr

/-- The entity store: the three tables plus id generators. -/
structure Store where
  recipes : List Recipe
  tags : List Tag
  ingredients : List Ingredient
  nextRecipeId : Nat
  nextTagId : Nat
  nextIngredientId : Nat
  deriving DecidableEq, Repr

/-- The lookup predicate of Tag.objects.get_or_create(user=..., name=...):
the record matches the (owner, name) natural key. -/
def matchesKey (u : UserId) (n : String) (t : NamedRecord) : Bool :=
  t.user == u && t.name == n

/-- Tag.objects.get_or_create (and the identical Ingredient call): return
the existing record with the given (owner, name) pair, or append a fresh
record with the next id.  Returns the resolved record, the table, and the
next-id counter. -/
def getOrCreate (u : UserId) (n : String) (recs : List NamedRecord) (next : Nat) :
    NamedRecord × List NamedRecord × Nat :=
  match recs.find? (matchesKey u n) with
  | some t => (t, recs, next)
  | none => (⟨next, u, n⟩, recs ++ [⟨next, u, n⟩], next + 1)

/-- recipe.tags.add(tag) / recipe.ingredients.add(ingredient): insert an id
into a relation set; adding an already-attached id is a no-op. -/
def addRel (rel : List Nat) (i : Nat) : List Nat :=
  if i ∈ rel then rel else rel ++ [i]

/-- The loop body shared by RecipeSerializer._get_or_create_tags and
RecipeSerializer._get_or_create_ingredients: for each requested name,
get-or-create the record for (auth_user, name) and attach it to the
relation set. -/
def attachAll (u : UserId) (names : List String) (rel : List Nat)
    (recs : List NamedRecord) (next : Nat) : List Nat × List NamedRecord × Nat :=
  match names with
  | [] => (rel, recs, next)
  | n :: rest =>
      let r := getOrCreate u n recs next
      attachAll u rest (addRel rel r.1.id) r.2.1 r.2.2

/-- Validated data accepted by RecipeSerializer.create via the
RecipeDetailSerializer field list (id is read-only, user is absent from
Meta.fields).  tags and ingredients are declared required=False, so each
is either absent (none) or a list of requested names. -/
structure RecipeCreateData where
  title : String
  time_minutes : Nat
  price : Int
  link : String
  description : String
  tags : Option (List String)
  ingredients : Option (List String)
  deriving DecidableEq, Repr

/-- Validated data accepted by a partial update: every writable field is
optional.  As in the update method, tags and ingredients distinguish
absent (none) from an empty list (some []). -/
structure RecipeUpdateData where
  title : Option String
  time_minutes : Option Nat
  price : Option Int
  link : Option String
  description : Option String
  tags : Option (List String)
  ingredients : Option (List String)
  deriving DecidableEq, Repr

namespace RecipeSerializer

/-- RecipeSerializer.create: pop tags and ingredients (defaulting to the
empty list), create the recipe from the remaining validated data, then
run the get-or-create attach loops.  The owner comes from
RecipeViewSet.perform_create, which saves with user=self.request.user. -/
def create (authUser : UserId) (d : RecipeCreateData) (s : Store) : Recipe × Store :=
  let base : Recipe :=
    { id := s.nextRecipeId, user := authUser, title := d.title,
      time_minutes := d.time_minutes, price := d.price, link := d.link,
      description := d.description, tags := [], ingredients := [] }
  let (tagRel, tagTable, nextT) :=
    attachAll authUser (d.tags.getD []) [] s.tags s.nextTagId
  let (ingRel, ingTable, nextI) :=
    attachAll authUser (d.ingredients.getD []) [] s.ingredients s.nextIngredientId
  let r : Recipe := { base with tags := tagRel, ingredients := ingRel }
  (r, { s with
        recipes := s.recipes ++ [r]
        tags := tagTable
        ingredients := ingTable
        nextRecipeId := s.nextRecipeId + 1
        nextTagId := nextT
        nextIngredientId := nextI })

/-- RecipeSerializer.update: pop tags and ingredients (defaulting to
None); when a list is present (including the empty list) clear the
relation set and re-run the attach loop; then copy every remaining
validated field onto the instance and save it back to the store.  The
instance's user attribute is never written. -/
def update (authUser : UserId) (d : RecipeUpdateData) (inst : Recipe)
    (s : Store) : Recipe × Store :=
  let (tagRel, tagTable, nextT) :=
    match d.tags with
    | none => (inst.tags, s.tags, s.nextTagId)
    | some names => attachAll authUser names [] s.tags s.nextTagId
  let (ingRel, ingTable, nextI) :=
    match d.ingredients with
    | none => (inst.ingredients, s.ingredients, s.nextIngredientId)
    | some names => attachAll authUser names [] s.ingredients s.nextIngredientId
  let r : Recipe :=
    { inst with
      title := d.title.getD inst.title,
      time_minutes := d.time_minutes.getD inst.time_minutes,
      price := d.price.getD inst.price,
      link := d.link.getD inst.link,
      description := d.description.getD inst.description,
      tags := tagRel, ingredients := ingRel }
  (r, { s with
        recipes := s.recipes.map (fun x => if x.id == inst.id then r else x)
        tags := tagTable
        ingredients := ingTable
        nextTagId := nextT
        nextIngredientId := nextI })

end RecipeSerializer

/-- A raw recipe write payload as sent by a caller: the validated fields
plus a possibly supplied owner value, which the serializer must ignore
because user is not listed in Meta.fields. -/
structure RawCreatePayload where
  data : RecipeCreateData
  user : Option UserId
  deriving DecidableEq, Repr

/-- A raw update payload with a possibly supplied owner value. -/
structure RawUpdatePayload where
  data : RecipeUpdateData
  user : Option UserId
  deriving DecidableEq, Repr

/-- ModelSerializer validation against Meta.fields: every declared field
passes through, the undeclared user key is dropped. -/
def validateCreate (p : RawCreatePayload) : RecipeCreateData := p.data

/-- ModelSerializer validation against Meta.fields for updates: the
undeclared user key is dropped. -/
def validateUpdate (p : RawUpdatePayload) : RecipeUpdateData := p.data

namespace RecipeViewSet

/-- RecipeViewSet.perform_create composed with serializer validation:
validate the raw payload (dropping any caller-supplied owner) and save
with user=self.request.user. -/
def performCreate (authUser : UserId) (p : RawCreatePayload) (s : Store) :
    Recipe × Store :=
  RecipeSerializer.create authUser (validateCreate p) s

/-- Descending-id order, the order_by minus-id of
RecipeViewSet.get_queryset. -/
def idGE (a b : Recipe) : Prop := b.id ≤ a.id

instance : DecidableRel idGE := fun a b => inferInstanceAs (Decidable (b.id ≤ a.id))

/-- RecipeViewSet.get_queryset: the recipes owned by the requesting user,
ordered by descending id. -/
def get_queryset (authUser : UserId) (s : Store) : List Recipe :=
  List.insertionSort idGE (s.recipes.filter (fun r => r.user == authUser))

/-- The detail-route object lookup: the generic view resolves the pk
inside get_queryset, so a recipe of another owner is indistinguishable
from an absent pk (none, rendered as status 404). -/
def get_object (authUser : UserId) (pk : Nat) (s : Store) : Option Recipe :=
  (s.recipes.filter (fun r => r.user == authUser)).find? (fun r => r.id == pk)

/-- The destroy action: resolve the object inside the user-scoped
queryset; on success delete the row with that pk, otherwise report
not-found (none) and leave the store untouched. -/
def destroy (authUser : UserId) (pk : Nat) (s : Store) : Option Store :=
  (get_object authUser pk s).map
    (fun _ => { s with recipes := s.recipes.filter (fun r => r.id != pk) })

/-- The patch action: resolve the object inside the user-scoped queryset,
validate the payload, and run RecipeSerializer.update. -/
def patchRecipe (authUser : UserId) (pk : Nat) (p : RawUpdatePayload) (s : Store) :
    Option (Recipe × Store) :=
  (get_object authUser pk s).map
    (fun r => RecipeSerializer.update authUser (validateUpdate p) r s)

end RecipeViewSet

/-- Descending-name order, the order_by minus-name of the tag and
ingredient list views.  String order is lexicographic order on the
underlying character list, stated here directly on that list. -/
def nameGE (a b : NamedRecord) : Prop := b.name.data ≤ a.name.data

instance : DecidableRel nameGE :=
  fun a b => inferInstanceAs (Decidable (b.name.data ≤ a.name.data))

namespace TagViewSet

/-- TagViewSet.get_queryset as written in src/app/recipe/views.py: the
tags owned by the requesting user, ordered by descending name.  The
assignedOnly argument stands for the assigned_only request query
parameter, which this method never reads. -/
def get_queryset (authUser : UserId) (assignedOnly : Bool) (s : Store) : List Tag :=
  List.insertionSort nameGE (s.tags.filter (fun t => t.user == authUser))

/-- The tag detail-route object lookup inside the user-scoped queryset. -/
def get_object (authUser : UserId) (pk : Nat) (s : Store) : Option Tag :=
  (s.tags.filter (fun t => t.user == authUser)).find? (fun t => t.id == pk)

/-- The tag destroy action: not-found (none) outside the user-scoped
queryset, otherwise delete the row. -/
def destroy (authUser : UserId) (pk : Nat) (s : Store) : Option Store :=
  (get_object authUser pk s).map
    (fun _ => { s with tags := s.tags.filter (fun t => t.id != pk) })

end TagViewSet

namespace IngredientViewSet

/-- Modelled from the spec: IngredientViewSet is not among the provided
source files (only its tests are).  Section 4.2 of the spec: return the
records owned by the owner, restricted when assigned_only is true to
those appearing in the ingredient set of at least one recipe of the same
owner, in descending-name order. -/
def get_queryset (authUser : UserId) (assignedOnly : Bool) (s : Store) :
    List Ingredient :=
  let own := s.ingredients.filter (fun t => t.user == authUser)
  let base :=
    if assignedOnly then
      own.filter (fun t => s.recipes.any (fun r => r.user == authUser && r.ingredients.contains t.id))
    else own
  List.insertionSort nameGE base

/-- Modelled from the spec: the ingredient detail-route lookup resolves
the pk inside the owner-scoped record set (spec section 4.3:
filter-by-owner before lookup-by-id). -/
def get_object (authUser : UserId) (pk : Nat) (s : Store) : Option Ingredient :=
  (s.ingredients.filter (fun t => t.user == authUser)).find? (fun t => t.id == pk)

/-- Modelled from the spec: the ingredient destroy action reports
not-found (none) when the pk does not resolve inside the owner-scoped
set, otherwise deletes the row. -/
def destroy (authUser : UserId) (pk : Nat) (s : Store) : Option Store :=
  (get_object authUser pk s).map
    (fun _ => { s with ingredients := s.ingredients.filter (fun t => t.id != pk) })

end IngredientViewSet

/-! ### Store invariants and auxiliary counting functions -/

/-- Well-formedness of a Tag or Ingredient table: ids are pairwise
distinct, (owner, name) natural keys are pairwise distinct (the
uniqueness the spec requires the store to guarantee for get_or_create),
and every id is below the next-id counter. -/
def EntsOk (recs : List NamedRecord) (next : Nat) : Prop :=
  (recs.map NamedRecord.id).Nodup ∧
  (recs.map (fun t => (t.user, t.name))).Nodup ∧
  ∀ t ∈ recs, t.id < next

instance (recs : List NamedRecord) (next : Nat) : Decidable (EntsOk recs next) :=
  inferInstanceAs (Decidable (_ ∧ _ ∧ _))

/-- How many records of the table carry the given (owner, name) pair. -/
def countPair (u : UserId) (n : String) (recs : List NamedRecord) : Nat :=
  (recs.filter (matchesKey u n)).length

/-- The entries of a relation set whose record carries the given
(owner, name) pair. -/
def relEntriesFor (u : UserId) (n : String) (rel : List Nat)
    (recs : List NamedRecord) : List Nat :=
  rel.filter (fun i => recs.any (fun t => t.id == i && matchesKey u n t))

/-! ### Lemmas about getOrCreate -/

theorem matchesKey_iff {u : UserId} {n : String} {t : NamedRecord} :
    matchesKey u n t = true ↔ t.user = u ∧ t.name = n := by
  simp [matchesKey]

theorem goc_eq_of_found {u : UserId} {n : String} {recs : List NamedRecord}
    {next : Nat} {t0 : NamedRecord} (h : recs.find? (matchesKey u n) = some t0) :
    getOrCreate u n recs next = (t0, recs, next) := by
  simp [getOrCreate, h]

theorem goc_eq_of_not_found {u : UserId} {n : String} {recs : List NamedRecord}
    {next : Nat} (h : recs.find? (matchesKey u n) = none) :
    getOrCreate u n recs next = (⟨next, u, n⟩, recs ++ [⟨next, u, n⟩], next + 1) := by
  simp [getOrCreate, h]

theorem goc_key (u : UserId) (n : String) (recs : List NamedRecord) (next : Nat) :
    (getOrCreate u n recs next).1.user = u ∧ (getOrCreate u n recs next).1.name = n := by
  rcases hfind : recs.find? (matchesKey u n) with _ | t0
  · rw [goc_eq_of_not_found hfind]
    exact ⟨rfl, rfl⟩
  · rw [goc_eq_of_found hfind]
    exact matchesKey_iff.mp (List.find?_some hfind)

theorem goc_mem (u : UserId) (n : String) (recs : List NamedRecord) (next : Nat) :
    (getOrCreate u n recs next).1 ∈ (getOrCreate u n recs next).2.1 := by
  rcases hfind : recs.find? (matchesKey u n) with _ | t0
  · rw [goc_eq_of_not_found hfind]
    simp
  · rw [goc_eq_of_found hfind]
    exact List.mem_of_find?_eq_some hfind

theorem goc_subset {x : NamedRecord} (u : UserId) (n : String)
    (recs : List NamedRecord) (next : Nat) (hx : x ∈ recs) :
    x ∈ (getOrCreate u n recs next).2.1 := by
  rcases hfind : recs.find? (matchesKey u n) with _ | t0
  · rw [goc_eq_of_not_found hfind]
    exact List.mem_append_left _ hx
  · rw [goc_eq_of_found hfind]
    exact hx

theorem goc_members {x : NamedRecord} (u : UserId) (n : String)
    (recs : List NamedRecord) (next : Nat)
    (hx : x ∈ (getOrCreate u n recs next).2.1) :
    x ∈ recs ∨ x = (getOrCreate u n recs next).1 := by
  rcases hfind : recs.find? (matchesKey u n) with _ | t0
  · rw [goc_eq_of_not_found hfind] at hx ⊢
    rcases List.mem_append.mp hx with h | h
    · exact Or.inl h
    · exact Or.inr (List.mem_singleton.mp h)
  · rw [goc_eq_of_found hfind] at hx
    exact Or.inl hx

theorem goc_next_le (u : UserId) (n : String) (recs : List NamedRecord) (next : Nat) :
    next ≤ (getOrCreate u n recs next).2.2 := by
  rcases hfind : recs.find? (matchesKey u n) with _ | t0
  · rw [goc_eq_of_not_found hfind]
    exact Nat.le_succ next
  · rw [goc_eq_of_found hfind]

theorem goc_ok {u : UserId} {n : String} {recs : List NamedRecord} {next : Nat}
    (h : EntsOk recs next) :
    EntsOk (getOrCreate u n recs next).2.1 (getOrCreate u n recs next).2.2 := by
  obtain ⟨hid, hkey, hlt⟩ := h
  rcases hfind : recs.find? (matchesKey u n) with _ | t0
  · rw [goc_eq_of_not_found hfind]
    have hnew : ∀ x ∈ recs, ¬ (x.user = u ∧ x.name = n) := by
      intro x hx hk
      exact (List.find?_eq_none.mp hfind x hx) (matchesKey_iff.mpr hk)
    refine ⟨?_, ?_, ?_⟩
    · rw [List.map_append, List.nodup_append]
      refine ⟨hid, List.nodup_singleton _, ?_⟩
      intro i hi hj
      simp only [List.map_cons, List.map_nil, List.mem_singleton] at hj
      rcases List.mem_map.mp hi with ⟨x, hx, hxi⟩
      have hb := hlt x hx
      omega
    · rw [List.map_append, List.nodup_append]
      refine ⟨hkey, List.nodup_singleton _, ?_⟩
      intro p hp hq
      simp only [List.map_cons, List.map_nil, List.mem_singleton] at hq
      subst hq
      rcases List.mem_map.mp hp with ⟨x, hx, hxp⟩
      exact hnew x hx ⟨congrArg Prod.fst hxp, congrArg Prod.snd hxp⟩
    · intro t ht
      rcases List.mem_append.mp ht with h | h
      · exact Nat.lt_succ_of_lt (hlt t h)
      · rw [List.mem_singleton.mp h]
        exact Nat.lt_succ_self next
  · rw [goc_eq_of_found hfind]
    exact ⟨hid, hkey, hlt⟩

theorem goc_countPair {u' : UserId} {n' : String} (u : UserId) (n : String)
    (recs : List NamedRecord) (next : Nat)
    (hex : ∃ x ∈ recs, x.user = u' ∧ x.name = n') :
    countPair u' n' (getOrCreate u n recs next).2.1 = countPair u' n' recs := by
  rcases hfind : recs.find? (matchesKey u n) with _ | t0
  · rw [goc_eq_of_not_found hfind]
    unfold countPair
    rw [List.filter_append]
    rcases hm : matchesKey u' n' ⟨next, u, n⟩ with _ | _
    · simp [hm]
    · exfalso
      obtain ⟨hu, hn⟩ := matchesKey_iff.mp hm
      obtain ⟨x, hx, hxu, hxn⟩ := hex
      exact (List.find?_eq_none.mp hfind x hx)
        (matchesKey_iff.mpr ⟨hxu.trans hu.symm, hxn.trans hn.symm⟩)
  · rw [goc_eq_of_found hfind]

/-! ### Lemmas about addRel and attachAll -/

theorem mem_addRel_iff {rel : List Nat} {i j : Nat} :
    j ∈ addRel rel i ↔ j ∈ rel ∨ j = i := by
  unfold addRel
  by_cases h : i ∈ rel
  · rw [if_pos h]
    constructor
    · exact Or.inl
    · rintro (hj | rfl)
      exacts [hj, h]
  · rw [if_neg h]
    simp

theorem self_mem_addRel (rel : List Nat) (i : Nat) : i ∈ addRel rel i :=
  mem_addRel_iff.mpr (Or.inr rfl)

theorem mem_addRel_of_mem {rel : List Nat} {i j : Nat} (h : j ∈ rel) :
    j ∈ addRel rel i :=
  mem_addRel_iff.mpr (Or.inl h)

theorem addRel_nodup {rel : List Nat} {i : Nat} (h : rel.Nodup) :
    (addRel rel i).Nodup := by
  unfold addRel
  by_cases hm : i ∈ rel
  · rwa [if_pos hm]
  · rw [if_neg hm]
    simp [List.nodup_append, h, hm]

theorem attachAll_nil (u : UserId) (rel : List Nat) (recs : List NamedRecord)
    (next : Nat) : attachAll u [] rel recs next = (rel, recs, next) := rfl

theorem attachAll_cons (u : UserId) (n : String) (rest : List String)
    (rel : List Nat) (recs : List NamedRecord) (next : Nat) :
    attachAll u (n :: rest) rel recs next =
      attachAll u rest (addRel rel (getOrCreate u n recs next).1.id)
        (getOrCreate u n recs next).2.1 (getOrCreate u n recs next).2.2 := rfl

theorem attachAll_subset_recs {u : UserId} {names : List String} {x : NamedRecord} :
    ∀ {rel : List Nat} {recs : List NamedRecord} {next : Nat}, x ∈ recs →
      x ∈ (attachAll u names rel recs next).2.1 := by
  induction names with
  | nil => intro rel recs next hx; exact hx
  | cons n rest ih =>
      intro rel recs next hx
      rw [attachAll_cons]
      exact ih (goc_subset u n recs next hx)

theorem attachAll_next_le {u : UserId} {names : List String} :
    ∀ {rel : List Nat} {recs : List NamedRecord} {next : Nat},
      next ≤ (attachAll u names rel recs next).2.2 := by
  induction names with
  | nil => intro rel recs next; exact le_refl _
  | cons n rest ih =>
      intro rel recs next
      rw [attachAll_cons]
      exact le_trans (goc_next_le u n recs next) ih

theorem attachAll_ok {u : UserId} {names : List String} :
    ∀ {rel : List Nat} {recs : List NamedRecord} {next : Nat}, EntsOk recs next →
      EntsOk (attachAll u names rel recs next).2.1 (attachAll u names rel recs next).2.2 := by
  induction names with
  | nil => intro rel recs next h; exact h
  | cons n rest ih =>
      intro rel recs next h
      rw [attachAll_cons]
      exact ih (goc_ok h)

theorem attachAll_rel_mono {u : UserId} {names : List String} :
    ∀ {rel : List Nat} {recs : List NamedRecord} {next : Nat} {i : Nat}, i ∈ rel →
      i ∈ (attachAll u names rel recs next).1 := by
  induction names with
  | nil => intro rel recs next i h; exact h
  | cons n rest ih =>
      intro rel recs next i h
      rw [attachAll_cons]
      exact ih (mem_addRel_of_mem h)

theorem attachAll_rel_nodup {u : UserId} {names : List String} :
    ∀ {rel : List Nat} {recs : List NamedRecord} {next : Nat}, rel.Nodup →
      (attachAll u names rel recs next).1.Nodup := by
  induction names with
  | nil => intro rel recs next h; exact h
  | cons n rest ih =>
      intro rel recs next h
      rw [attachAll_cons]
      exact ih (addRel_nodup h)

theorem attachAll_members {u : UserId} {names : List String} :
    ∀ {rel : List Nat} {recs : List NamedRecord} {next : Nat} {x : NamedRecord},
      x ∈ (attachAll u names rel recs next).2.1 →
      x ∈ recs ∨ (x.user = u ∧ x.name ∈ names) := by
  induction names with
  | nil => intro rel recs next x h; exact Or.inl h
  | cons n rest ih =>
      intro rel recs next x h
      rw [attachAll_cons] at h
      rcases ih h with h1 | ⟨hu, hn⟩
      · rcases goc_members u n recs next h1 with h2 | h2
        · exact Or.inl h2
        · refine Or.inr ⟨?_, ?_⟩
          · rw [h2]; exact (goc_key u n recs next).1
          · rw [h2, (goc_key u n recs next).2]; exact List.mem_cons_self n rest
      · exact Or.inr ⟨hu, List.mem_cons_of_mem n hn⟩

theorem attachAll_countPair {u u' : UserId} {n' : String} {names : List String} :
    ∀ {rel : List Nat} {recs : List NamedRecord} {next : Nat},
      (∃ x ∈ recs, x.user = u' ∧ x.name = n') →
      countPair u' n' (attachAll u names rel recs next).2.1 = countPair u' n' recs := by
  induction names with
  | nil => intro rel recs next _; rfl
  | cons n rest ih =>
      intro rel recs next hex
      rw [attachAll_cons]
      obtain ⟨x, hx, hxu, hxn⟩ := hex
      have hx1 : x ∈ (getOrCreate u n recs next).2.1 := goc_subset u n recs next hx
      rw [ih ⟨x, hx1, hxu, hxn⟩]
      exact goc_countPair u n recs next ⟨x, hx, hxu, hxn⟩

theorem attachAll_attached {u : UserId} {names : List String} {n : String} :
    ∀ {rel : List Nat} {recs : List NamedRecord} {next : Nat}, n ∈ names →
      ∃ t, t ∈ (attachAll u names rel recs next).2.1 ∧ t.user = u ∧ t.name = n ∧
        t.id ∈ (attachAll u names rel recs next).1 := by
  induction names with
  | nil => intro rel recs next h; exact absurd h (List.not_mem_nil n)
  | cons n0 rest ih =>
      intro rel recs next h
      rcases List.mem_cons.mp h with rfl | hrest
      · rw [attachAll_cons]
        refine ⟨(getOrCreate u n recs next).1,
          attachAll_subset_recs (goc_mem u n recs next),
          (goc_key u n recs next).1, (goc_key u n recs next).2, ?_⟩
        exact attachAll_rel_mono (self_mem_addRel rel _)
      · rw [attachAll_cons]
        exact ih hrest

theorem pair_inj {recs : List NamedRecord}
    (h : (recs.map (fun t => (t.user, t.name))).Nodup)
    {x y : NamedRecord} (hx : x ∈ recs) (hy : y ∈ recs)
    (hu : x.user = y.user) (hn : x.name = y.name) : x = y :=
  List.inj_on_of_nodup_map h hx hy (by simp only [hu, hn])

theorem attachAll_mem_rel_iff {u : UserId} {names : List String} :
    ∀ {rel : List Nat} {recs : List NamedRecord} {next : Nat}, EntsOk recs next →
      ∀ {i : Nat},
      (i ∈ (attachAll u names rel recs next).1 ↔
        i ∈ rel ∨ ∃ t, t ∈ (attachAll u names rel recs next).2.1 ∧
          t.id = i ∧ t.user = u ∧ t.name ∈ names) := by
  induction names with
  | nil =>
      intro rel recs next _ i
      simp [attachAll_nil]
  | cons n rest ih =>
      intro rel recs next hok i
      rw [attachAll_cons, ih (goc_ok hok), mem_addRel_iff]
      have hok' : EntsOk
          (attachAll u rest (addRel rel (getOrCreate u n recs next).1.id)
            (getOrCreate u n recs next).2.1 (getOrCreate u n recs next).2.2).2.1
          (attachAll u rest (addRel rel (getOrCreate u n recs next).1.id)
            (getOrCreate u n recs next).2.1 (getOrCreate u n recs next).2.2).2.2 :=
        attachAll_ok (goc_ok hok)
      have htmem : (getOrCreate u n recs next).1 ∈
          (attachAll u rest (addRel rel (getOrCreate u n recs next).1.id)
            (getOrCreate u n recs next).2.1 (getOrCreate u n recs next).2.2).2.1 :=
        attachAll_subset_recs (goc_mem u n recs next)
      constructor
      · rintro ((h | h) | ⟨x, hx, hxi, hxu, hxn⟩)
        · exact Or.inl h
        · refine Or.inr ⟨(getOrCreate u n recs next).1, htmem, h.symm,
            (goc_key u n recs next).1, ?_⟩
          rw [(goc_key u n recs next).2]
          exact List.mem_cons_self n rest
        · exact Or.inr ⟨x, hx, hxi, hxu, List.mem_cons_of_mem n hxn⟩
      · rintro (h | ⟨x, hx, hxi, hxu, hxn⟩)
        · exact Or.inl (Or.inl h)
        · rcases List.mem_cons.mp hxn with heq | hrest
          · refine Or.inl (Or.inr ?_)
            have hxt : x = (getOrCreate u n recs next).1 :=
              pair_inj hok'.2.1 hx htmem
                (hxu.trans (goc_key u n recs next).1.symm)
                (heq.trans (goc_key u n recs next).2.symm)
            rw [← hxi, hxt]
          · exact Or.inr ⟨x, hx, hxi, hxu, hrest⟩

/-! ### Counting helpers and order facts -/

theorem length_eq_one_of_nodup_all_eq {α : Type} {l : List α} {a : α}
    (hnd : l.Nodup) (ha : a ∈ l) (h : ∀ x ∈ l, x = a) : l.length = 1 := by
  cases l with
  | nil => exact absurd ha (List.not_mem_nil a)
  | cons x rest =>
      have hx : x = a := h x (List.mem_cons_self x rest)
      have hrest : rest = [] := by
        rw [List.eq_nil_iff_forall_not_mem]
        intro y hy
        have hy' : y = a := h y (List.mem_cons_of_mem x hy)
        exact ((List.nodup_cons.mp hnd).1) (by rw [hx, ← hy']; exact hy)
      rw [hrest]
      rfl

theorem countPair_eq_one {u : UserId} {n : String} {recs : List NamedRecord}
    {next : Nat} (hok : EntsOk recs next) {t0 : NamedRecord}
    (ht0 : t0 ∈ recs) (hu : t0.user = u) (hn : t0.name = n) :
    countPair u n recs = 1 := by
  unfold countPair
  have hrecs : recs.Nodup := hok.1.of_map _
  have hfnd : (recs.filter (matchesKey u n)).Nodup := hrecs.filter _
  have ht0f : t0 ∈ recs.filter (matchesKey u n) :=
    List.mem_filter.mpr ⟨ht0, matchesKey_iff.mpr ⟨hu, hn⟩⟩
  refine length_eq_one_of_nodup_all_eq hfnd ht0f ?_
  intro x hx
  obtain ⟨hxr, hxm⟩ := List.mem_filter.mp hx
  obtain ⟨hxu, hxn⟩ := matchesKey_iff.mp hxm
  exact pair_inj hok.2.1 hxr ht0 (hxu.trans hu.symm) (hxn.trans hn.symm)

instance : IsTotal NamedRecord nameGE :=
  ⟨fun a b => (le_total a.name.data b.name.data).symm⟩

instance : IsTrans NamedRecord nameGE :=
  ⟨fun _ _ _ hab hbc => le_trans hbc hab⟩

instance : IsTotal Recipe RecipeViewSet.idGE :=
  ⟨fun a b => (le_total a.id b.id).symm⟩

instance : IsTrans Recipe RecipeViewSet.idGE :=
  ⟨fun _ _ _ hab hbc => le_trans hbc hab⟩

theorem attachAll_relEntries_one {u : UserId} {n : String} {names : List String}
    {recs : List NamedRecord} {next : Nat} (hok : EntsOk recs next) (hn : n ∈ names) :
    (relEntriesFor u n (attachAll u names [] recs next).1
      (attachAll u names [] recs next).2.1).length = 1 := by
  obtain ⟨t1, ht1m, ht1u, ht1n, ht1r⟩ :=
    @attachAll_attached u names n [] recs next hn
  have hok' : EntsOk (attachAll u names [] recs next).2.1
      (attachAll u names [] recs next).2.2 := attachAll_ok hok
  have hrelnd : (attachAll u names [] recs next).1.Nodup :=
    attachAll_rel_nodup List.nodup_nil
  unfold relEntriesFor
  have ht1f : t1.id ∈ (attachAll u names [] recs next).1.filter
      (fun i => (attachAll u names [] recs next).2.1.any
        (fun t => t.id == i && matchesKey u n t)) := by
    refine List.mem_filter.mpr ⟨ht1r, ?_⟩
    refine List.any_eq_true.mpr ⟨t1, ht1m, ?_⟩
    rw [Bool.and_eq_true]
    exact ⟨beq_self_eq_true _, matchesKey_iff.mpr ⟨ht1u, ht1n⟩⟩
  refine length_eq_one_of_nodup_all_eq (hrelnd.filter _) ht1f ?_
  intro i hi
  obtain ⟨_, hany⟩ := List.mem_filter.mp hi
  obtain ⟨x, hxm, hxp⟩ := List.any_eq_true.mp hany
  rw [Bool.and_eq_true] at hxp
  obtain ⟨hxu, hxn⟩ := matchesKey_iff.mp hxp.2
  have hxt1 : x = t1 :=
    pair_inj hok'.2.1 hxm ht1m (hxu.trans ht1u.symm) (hxn.trans ht1n.symm)
  have hxi : x.id = i := eq_of_beq hxp.1
  rw [← hxi, hxt1]

/-! ### The claims -/

/-- C1: for every recipe update, if the tags (resp. ingredients) field is
absent from the payload the relation set after the update equals the set
before; if the field is present (including as the empty list) the prior
relation set is fully cleared and exactly the records resolved by
get-or-create for the requested names are attached: the resulting
relation set holds an id exactly when the resulting table holds a record
with that id whose owner is the requesting user and whose name is one of
the requested names. -/
theorem c1_update_clear_and_replace (u : UserId) (d : RecipeUpdateData)
    (inst : Recipe) (s : Store)
    (hokT : EntsOk s.tags s.nextTagId)
    (hokI : EntsOk s.ingredients s.nextIngredientId) :
    (d.tags = none → (RecipeSerializer.update u d inst s).1.tags = inst.tags) ∧
    (∀ names, d.tags = some names → ∀ i,
      (i ∈ (RecipeSerializer.update u d inst s).1.tags ↔
        ∃ t, t ∈ (RecipeSerializer.update u d inst s).2.tags ∧
          t.id = i ∧ t.user = u ∧ t.name ∈ names)) ∧
    (d.ingredients = none →
      (RecipeSerializer.update u d inst s).1.ingredients = inst.ingredients) ∧
    (∀ names, d.ingredients = some names → ∀ i,
      (i ∈ (RecipeSerializer.update u d inst s).1.ingredients ↔
        ∃ t, t ∈ (RecipeSerializer.update u d inst s).2.ingredients ∧
          t.id = i ∧ t.user = u ∧ t.name ∈ names)) := by
  refine ⟨?_, ?_, ?_, ?_⟩
  · intro h
    simp [RecipeSerializer.update, h]
  · intro names h i
    have h1 : (RecipeSerializer.update u d inst s).1.tags =
        (attachAll u names [] s.tags s.nextTagId).1 := by
      simp [RecipeSerializer.update, h]
    have h2 : (RecipeSerializer.update u d inst s).2.tags =
        (attachAll u names [] s.tags s.nextTagId).2.1 := by
      simp [RecipeSerializer.update, h]
    rw [h1, h2]
    simpa using @attachAll_mem_rel_iff u names [] s.tags s.nextTagId hokT i
  · intro h
    simp [RecipeSerializer.update, h]
  · intro names h i
    have h1 : (RecipeSerializer.update u d inst s).1.ingredients =
        (attachAll u names [] s.ingredients s.nextIngredientId).1 := by
      simp [RecipeSerializer.update, h]
    have h2 : (RecipeSerializer.update u d inst s).2.ingredients =
        (attachAll u names [] s.ingredients s.nextIngredientId).2.1 := by
      simp [RecipeSerializer.update, h]
    rw [h1, h2]
    simpa using @attachAll_mem_rel_iff u names [] s.ingredients s.nextIngredientId hokI i

/-- C2: when a create or update references a tag (or ingredient) name for
which a record with that (owner, name) pair already exists, the existing
record is attached (its id lands in the resulting relation set) and no
new record is created: the resulting table still holds exactly one record
for that (owner, name) pair. -/
theorem c2_existing_record_reused (u : UserId) (names mames : List String)
    (dC : RecipeCreateData) (dU : RecipeUpdateData) (inst : Recipe) (s : Store)
    (hCt : dC.tags = some names) (hUt : dU.tags = some names)
    (hCi : dC.ingredients = some mames) (hUi : dU.ingredients = some mames)
    (t0 : Tag) (ht0 : t0 ∈ s.tags) (ht0u : t0.user = u) (ht0n : t0.name ∈ names)
    (i0 : Ingredient) (hi0 : i0 ∈ s.ingredients) (hi0u : i0.user = u)
    (hi0n : i0.name ∈ mames)
    (hokT : EntsOk s.tags s.nextTagId)
    (hokI : EntsOk s.ingredients s.nextIngredientId) :
    (t0.id ∈ (RecipeSerializer.create u dC s).1.tags ∧
      countPair u t0.name (RecipeSerializer.create u dC s).2.tags = 1) ∧
    (t0.id ∈ (RecipeSerializer.update u dU inst s).1.tags ∧
      countPair u t0.name (RecipeSerializer.update u dU inst s).2.tags = 1) ∧
    (i0.id ∈ (RecipeSerializer.create u dC s).1.ingredients ∧
      countPair u i0.name (RecipeSerializer.create u dC s).2.ingredients = 1) ∧
    (i0.id ∈ (RecipeSerializer.update u dU inst s).1.ingredients ∧
      countPair u i0.name (RecipeSerializer.update u dU inst s).2.ingredients = 1) := by
  have keyT : ∀ relT : List Nat × List NamedRecord × Nat,
      relT = attachAll u names [] s.tags s.nextTagId →
      t0.id ∈ relT.1 ∧ countPair u t0.name relT.2.1 = 1 := by
    rintro relT rfl
    constructor
    · exact (attachAll_mem_rel_iff hokT).mpr
        (Or.inr ⟨t0, attachAll_subset_recs ht0, rfl, ht0u, ht0n⟩)
    · rw [attachAll_countPair ⟨t0, ht0, ht0u, rfl⟩]
      exact countPair_eq_one hokT ht0 ht0u rfl
  have keyI : ∀ relT : List Nat × List NamedRecord × Nat,
      relT = attachAll u mames [] s.ingredients s.nextIngredientId →
      i0.id ∈ relT.1 ∧ countPair u i0.name relT.2.1 = 1 := by
    rintro relT rfl
    constructor
    · exact (attachAll_mem_rel_iff hokI).mpr
        (Or.inr ⟨i0, attachAll_subset_recs hi0, rfl, hi0u, hi0n⟩)
    · rw [attachAll_countPair ⟨i0, hi0, hi0u, rfl⟩]
      exact countPair_eq_one hokI hi0 hi0u rfl
  refine ⟨?_, ?_, ?_, ?_⟩
  · have e1 : (RecipeSerializer.create u dC s).1.tags =
        (attachAll u names [] s.tags s.nextTagId).1 := by
      simp [RecipeSerializer.create, hCt]
    have e2 : (RecipeSerializer.create u dC s).2.tags =
        (attachAll u names [] s.tags s.nextTagId).2.1 := by
      simp [RecipeSerializer.create, hCt]
    rw [e1, e2]
    exact keyT _ rfl
  · have e1 : (RecipeSerializer.update u dU inst s).1.tags =
        (attachAll u names [] s.tags s.nextTagId).1 := by
      simp [RecipeSerializer.update, hUt]
    have e2 : (RecipeSerializer.update u dU inst s).2.tags =
        (attachAll u names [] s.tags s.nextTagId).2.1 := by
      simp [RecipeSerializer.update, hUt]
    rw [e1, e2]
    exact keyT _ rfl
  · have e1 : (RecipeSerializer.create u dC s).1.ingredients =
        (attachAll u mames [] s.ingredients s.nextIngredientId).1 := by
      simp [RecipeSerializer.create, hCi]
    have e2 : (RecipeSerializer.create u dC s).2.ingredients =
        (attachAll u mames [] s.ingredients s.nextIngredientId).2.1 := by
      simp [RecipeSerializer.create, hCi]
    rw [e1, e2]
    exact keyI _ rfl
  · have e1 : (RecipeSerializer.update u dU inst s).1.ingredients =
        (attachAll u mames [] s.ingredients s.nextIngredientId).1 := by
      simp [RecipeSerializer.update, hUi]
    have e2 : (RecipeSerializer.update u dU inst s).2.ingredients =
        (attachAll u mames [] s.ingredients s.nextIngredientId).2.1 := by
      simp [RecipeSerializer.update, hUi]
    rw [e1, e2]
    exact keyI _ rfl

/-- C6: a create or update whose tag name list contains the same name more
than once raises no error (the operations are total functions) and the
resulting relation set contains exactly one entry whose record carries
that name for the requesting owner. -/
theorem c6_duplicate_names_single_entry (u : UserId) (names : List String)
    (n : String) (dC : RecipeCreateData) (dU : RecipeUpdateData)
    (inst : Recipe) (s : Store)
    (hC : dC.tags = some names) (hU : dU.tags = some names)
    (hdup : 1 < names.count n)
    (hok : EntsOk s.tags s.nextTagId) :
    (relEntriesFor u n (RecipeSerializer.create u dC s).1.tags
        (RecipeSerializer.create u dC s).2.tags).length = 1 ∧
    (relEntriesFor u n (RecipeSerializer.update u dU inst s).1.tags
        (RecipeSerializer.update u dU inst s).2.tags).length = 1 := by
  have hn : n ∈ names := List.count_pos_iff.mp (Nat.lt_of_lt_of_le Nat.zero_lt_one hdup.le)
  constructor
  · have e1 : (RecipeSerializer.create u dC s).1.tags =
        (attachAll u names [] s.tags s.nextTagId).1 := by
      simp [RecipeSerializer.create, hC]
    have e2 : (RecipeSerializer.create u dC s).2.tags =
        (attachAll u names [] s.tags s.nextTagId).2.1 := by
      simp [RecipeSerializer.create, hC]
    rw [e1, e2]
    exact attachAll_relEntries_one hok hn
  · have e1 : (RecipeSerializer.update u dU inst s).1.tags =
        (attachAll u names [] s.tags s.nextTagId).1 := by
      simp [RecipeSerializer.update, hU]
    have e2 : (RecipeSerializer.update u dU inst s).2.tags =
        (attachAll u names [] s.tags s.nextTagId).2.1 := by
      simp [RecipeSerializer.update, hU]
    rw [e1, e2]
    exact attachAll_relEntries_one hok hn

/-- C8: the persisted owner is unaffected by any owner value in a write
payload: a created recipe's owner is the requesting identity, an updated
recipe keeps its prior owner, and after an update the (id, owner) pairs
of the stored recipes are unchanged. -/
theorem c8_owner_server_assigned (authUser : UserId) (p : RawCreatePayload)
    (q : RawUpdatePayload) (inst : Recipe) (s : Store)
    (hids : (s.recipes.map Recipe.id).Nodup) (hin : inst ∈ s.recipes) :
    (RecipeViewSet.performCreate authUser p s).1.user = authUser ∧
    (RecipeSerializer.update authUser (validateUpdate q) inst s).1.user = inst.user ∧
    (RecipeSerializer.update authUser (validateUpdate q) inst s).2.recipes.map
        (fun y => (y.id, y.user)) = s.recipes.map (fun y => (y.id, y.user)) := by
  refine ⟨rfl, rfl, ?_⟩
  have hrec : (RecipeSerializer.update authUser (validateUpdate q) inst s).2.recipes =
      s.recipes.map (fun x => if x.id == inst.id then
        (RecipeSerializer.update authUser (validateUpdate q) inst s).1 else x) := rfl
  rw [hrec, List.map_map]
  refine List.map_congr_left ?_
  intro x hx
  simp only [Function.comp]
  by_cases h : x.id = inst.id
  · have hxinst : x = inst := List.inj_on_of_nodup_map hids hx hin h
    have hu : (RecipeSerializer.update authUser (validateUpdate q) inst s).1.user =
        inst.user := rfl
    have hi : (RecipeSerializer.update authUser (validateUpdate q) inst s).1.id =
        inst.id := rfl
    simp [h, hu, hi, hxinst]
  · simp [h]

/-- C9: a partial update leaves every field that is absent from the
validated payload at its prior value; the id and the owner are never
modified. -/
theorem c9_update_frame (u : UserId) (d : RecipeUpdateData) (inst : Recipe)
    (s : Store) :
    (d.title = none → (RecipeSerializer.update u d inst s).1.title = inst.title) ∧
    (d.time_minutes = none →
      (RecipeSerializer.update u d inst s).1.time_minutes = inst.time_minutes) ∧
    (d.price = none → (RecipeSerializer.update u d inst s).1.price = inst.price) ∧
    (d.link = none → (RecipeSerializer.update u d inst s).1.link = inst.link) ∧
    (d.description = none →
      (RecipeSerializer.update u d inst s).1.description = inst.description) ∧
    (d.tags = none → (RecipeSerializer.update u d inst s).1.tags = inst.tags) ∧
    (d.ingredients = none →
      (RecipeSerializer.update u d inst s).1.ingredients = inst.ingredients) ∧
    (RecipeSerializer.update u d inst s).1.user = inst.user ∧
    (RecipeSerializer.update u d inst s).1.id = inst.id := by
  refine ⟨?_, ?_, ?_, ?_, ?_, ?_, ?_, rfl, rfl⟩ <;>
    intro h <;> simp [RecipeSerializer.update, h]

/-- C10: a create whose payload omits the tags and ingredients fields
succeeds with empty relation sets, creates no Tag or Ingredient record as
a side effect, and stores the new recipe. -/
theorem c10_create_absent_fields (u : UserId) (d : RecipeCreateData) (s : Store)
    (ht : d.tags = none) (hi : d.ingredients = none) :
    (RecipeSerializer.create u d s).1.tags = [] ∧
    (RecipeSerializer.create u d s).1.ingredients = [] ∧
    (RecipeSerializer.create u d s).2.tags = s.tags ∧
    (RecipeSerializer.create u d s).2.ingredients = s.ingredients ∧
    (RecipeSerializer.create u d s).1 ∈ (RecipeSerializer.create u d s).2.recipes := by
  refine ⟨?_, ?_, ?_, ?_, ?_⟩ <;>
    simp [RecipeSerializer.create, ht, hi, attachAll_nil]

/-- C4: every element of the list result for recipes, tags, or ingredients
requested as owner a is owned by a; no entity of a different owner b ever
appears. -/
theorem c4_lists_scoped_to_owner (a b : UserId) (q : Bool) (s : Store)
    (hab : a ≠ b) :
    (∀ r ∈ RecipeViewSet.get_queryset a s, r.user = a ∧ r.user ≠ b) ∧
    (∀ t ∈ TagViewSet.get_queryset a q s, t.user = a ∧ t.user ≠ b) ∧
    (∀ t ∈ IngredientViewSet.get_queryset a q s, t.user = a ∧ t.user ≠ b) := by
  refine ⟨?_, ?_, ?_⟩
  · intro r hrq
    have h2 := (List.perm_insertionSort RecipeViewSet.idGE _).mem_iff.mp hrq
    obtain ⟨_, hbq⟩ := List.mem_filter.mp h2
    have hra : r.user = a := by simpa using hbq
    exact ⟨hra, by rw [hra]; exact hab⟩
  · intro t htq
    have h2 : t ∈ s.tags ∧ t.user = a := by
      simpa [TagViewSet.get_queryset] using htq
    exact ⟨h2.2, by rw [h2.2]; exact hab⟩
  · intro t htq
    have hta : t.user = a := by
      cases q with
      | false =>
          have h2 : t ∈ s.ingredients ∧ t.user = a := by
            simpa [IngredientViewSet.get_queryset] using htq
          exact h2.2
      | true =>
          have h2 : t ∈ s.ingredients ∧
              (∃ x ∈ s.recipes, x.user = a ∧ t.id ∈ x.ingredients) ∧ t.user = a := by
            simpa [IngredientViewSet.get_queryset] using htq
          exact h2.2.2
    exact ⟨hta, by rw [hta]; exact hab⟩

/-- C5: a retrieve, update, or delete aimed at a record whose owner is not
the requesting identity resolves the pk inside the owner-scoped queryset
and therefore reports not-found (none) for all three entity kinds, with
no store modification; none is the very value produced when no record
with that pk exists at all, so the outward signal is identical. -/
theorem c5_cross_owner_not_found (a : UserId) (pk : Nat) (p : RawUpdatePayload)
    (s : Store)
    (hr : ∀ r ∈ s.recipes, r.id = pk → r.user ≠ a)
    (ht : ∀ t ∈ s.tags, t.id = pk → t.user ≠ a)
    (hi : ∀ t ∈ s.ingredients, t.id = pk → t.user ≠ a) :
    RecipeViewSet.get_object a pk s = none ∧
    RecipeViewSet.destroy a pk s = none ∧
    RecipeViewSet.patchRecipe a pk p s = none ∧
    TagViewSet.get_object a pk s = none ∧
    TagViewSet.destroy a pk s = none ∧
    IngredientViewSet.get_object a pk s = none ∧
    IngredientViewSet.destroy a pk s = none := by
  have hro : RecipeViewSet.get_object a pk s = none := by
    refine List.find?_eq_none.mpr ?_
    intro x hx hbeq
    obtain ⟨hxm, hxu⟩ := List.mem_filter.mp hx
    have hxa : x.user = a := by simpa using hxu
    have hxid : x.id = pk := by simpa using hbeq
    exact hr x hxm hxid hxa
  have hto : TagViewSet.get_object a pk s = none := by
    refine List.find?_eq_none.mpr ?_
    intro x hx hbeq
    obtain ⟨hxm, hxu⟩ := List.mem_filter.mp hx
    have hxa : x.user = a := by simpa using hxu
    have hxid : x.id = pk := by simpa using hbeq
    exact ht x hxm hxid hxa
  have hio : IngredientViewSet.get_object a pk s = none := by
    refine List.find?_eq_none.mpr ?_
    intro x hx hbeq
    obtain ⟨hxm, hxu⟩ := List.mem_filter.mp hx
    have hxa : x.user = a := by simpa using hxu
    have hxid : x.id = pk := by simpa using hbeq
    exact hi x hxm hxid hxa
  refine ⟨hro, ?_, ?_, hto, ?_, hio, ?_⟩
  · unfold RecipeViewSet.destroy
    rw [hro]
    rfl
  · unfold RecipeViewSet.patchRecipe
    rw [hro]
    rfl
  · unfold TagViewSet.destroy
    rw [hto]
    rfl
  · unfold IngredientViewSet.destroy
    rw [hio]
    rfl

/-- C7: the tag and ingredient list results are in descending
lexicographic order by name, the recipe list result in descending order
by id (each adjacent-free pairwise comparison holds along the lists). -/
theorem c7_list_ordering (a : UserId) (q : Bool) (s : Store) :
    (RecipeViewSet.get_queryset a s).Pairwise RecipeViewSet.idGE ∧
    (TagViewSet.get_queryset a q s).Pairwise nameGE ∧
    (IngredientViewSet.get_queryset a q s).Pairwise nameGE := by
  refine ⟨List.sorted_insertionSort _ _, List.sorted_insertionSort _ _, ?_⟩
  unfold IngredientViewSet.get_queryset
  exact List.sorted_insertionSort _ _

/-- The store exhibiting the assigned_only defect: owner 0 has Tag1
(id 0) attached to the sole recipe and Tag2 (id 1) attached to no
recipe. -/
def c3Store : Store :=
  { recipes := [⟨0, 0, "Recipe1", 10, 500, "", "", [0], []⟩],
    tags := [⟨0, 0, "Tag1"⟩, ⟨1, 0, "Tag2"⟩], ingredients := [],
    nextRecipeId := 1, nextTagId := 2, nextIngredientId := 0 }

/-- C3 fails on the code: TagViewSet.get_queryset never reads the
assigned_only parameter, so with assigned_only true it still returns
every tag of the owner.  In c3Store the tag with id 1 (Tag2) is attached
to no recipe, yet it appears in the result, where the claim (and the
repository's own test_filter_tags_assigned_to_recipes) requires exactly
the assigned records. -/
theorem c3_assigned_only_ignored :
    TagViewSet.get_queryset 0 true c3Store =
      [⟨1, 0, "Tag2"⟩, ⟨0, 0, "Tag1"⟩] ∧
    c3Store.recipes.all (fun r => !(r.tags.contains 1)) = true := by
  decide

/-! ### Concrete fixtures for the witness theorems -/

def wRecipe : Recipe := ⟨0, 7, "Sample recipe", 10, 550, "", "", [0], [0]⟩

def wStore : Store :=
  { recipes := [wRecipe], tags := [⟨0, 7, "Salt"⟩],
    ingredients := [⟨0, 7, "Flour"⟩],
    nextRecipeId := 1, nextTagId := 1, nextIngredientId := 1 }

def wUpdTags : RecipeUpdateData := ⟨none, none, none, none, none, some ["Salt"], none⟩

def wUpdBoth : RecipeUpdateData :=
  ⟨none, none, none, none, none, some ["Salt"], some ["Flour"]⟩

def wUpdNone : RecipeUpdateData := ⟨none, none, none, none, none, none, none⟩

def wUpdDup : RecipeUpdateData :=
  ⟨none, none, none, none, none, some ["Salt", "Salt"], none⟩

def wCreBoth : RecipeCreateData :=
  ⟨"New recipe", 5, 300, "", "", some ["Salt"], some ["Flour"]⟩

def wCreDup : RecipeCreateData :=
  ⟨"New recipe", 5, 300, "", "", some ["Salt", "Salt"], none⟩

def wCreNone : RecipeCreateData := ⟨"New recipe", 5, 300, "", "", none, none⟩

def wRawCre : RawCreatePayload := ⟨wCreNone, some 9⟩

def wRawUpd : RawUpdatePayload := ⟨wUpdNone, some 9⟩

/-- Witness for c1_update_clear_and_replace at a concrete store. -/
theorem c1_witness :
    EntsOk wStore.tags wStore.nextTagId ∧
    EntsOk wStore.ingredients wStore.nextIngredientId ∧
    ((wUpdTags.tags = none →
        (RecipeSerializer.update 7 wUpdTags wRecipe wStore).1.tags = wRecipe.tags) ∧
     (∀ names, wUpdTags.tags = some names → ∀ i,
       (i ∈ (RecipeSerializer.update 7 wUpdTags wRecipe wStore).1.tags ↔
         ∃ t, t ∈ (RecipeSerializer.update 7 wUpdTags wRecipe wStore).2.tags ∧
           t.id = i ∧ t.user = 7 ∧ t.name ∈ names)) ∧
     (wUpdTags.ingredients = none →
        (RecipeSerializer.update 7 wUpdTags wRecipe wStore).1.ingredients =
          wRecipe.ingredients) ∧
     (∀ names, wUpdTags.ingredients = some names → ∀ i,
       (i ∈ (RecipeSerializer.update 7 wUpdTags wRecipe wStore).1.ingredients ↔
         ∃ t, t ∈ (RecipeSerializer.update 7 wUpdTags wRecipe wStore).2.ingredients ∧
           t.id = i ∧ t.user = 7 ∧ t.name ∈ names))) :=
  ⟨by decide, by decide,
    c1_update_clear_and_replace 7 wUpdTags wRecipe wStore (by decide) (by decide)⟩

/-- Witness for c2_existing_record_reused at a concrete store. -/
theorem c2_witness :
    wCreBoth.tags = some ["Salt"] ∧ wUpdBoth.tags = some ["Salt"] ∧
    wCreBoth.ingredients = some ["Flour"] ∧ wUpdBoth.ingredients = some ["Flour"] ∧
    (⟨0, 7, "Salt"⟩ : Tag) ∈ wStore.tags ∧
    (⟨0, 7, "Flour"⟩ : Ingredient) ∈ wStore.ingredients ∧
    EntsOk wStore.tags wStore.nextTagId ∧
    EntsOk wStore.ingredients wStore.nextIngredientId ∧
    (((⟨0, 7, "Salt"⟩ : Tag).id ∈ (RecipeSerializer.create 7 wCreBoth wStore).1.tags ∧
      countPair 7 (⟨0, 7, "Salt"⟩ : Tag).name
        (RecipeSerializer.create 7 wCreBoth wStore).2.tags = 1) ∧
     ((⟨0, 7, "Salt"⟩ : Tag).id ∈
        (RecipeSerializer.update 7 wUpdBoth wRecipe wStore).1.tags ∧
      countPair 7 (⟨0, 7, "Salt"⟩ : Tag).name
        (RecipeSerializer.update 7 wUpdBoth wRecipe wStore).2.tags = 1) ∧
     ((⟨0, 7, "Flour"⟩ : Ingredient).id ∈
        (RecipeSerializer.create 7 wCreBoth wStore).1.ingredients ∧
      countPair 7 (⟨0, 7, "Flour"⟩ : Ingredient).name
        (RecipeSerializer.create 7 wCreBoth wStore).2.ingredients = 1) ∧
     ((⟨0, 7, "Flour"⟩ : Ingredient).id ∈
        (RecipeSerializer.update 7 wUpdBoth wRecipe wStore).1.ingredients ∧
      countPair 7 (⟨0, 7, "Flour"⟩ : Ingredient).name
        (RecipeSerializer.update 7 wUpdBoth wRecipe wStore).2.ingredients = 1)) :=
  ⟨by decide, by decide, by decide, by decide, by decide, by decide, by decide, by decide,
    c2_existing_record_reused 7 ["Salt"] ["Flour"] wCreBoth wUpdBoth wRecipe wStore
      (by decide) (by decide) (by decide) (by decide)
      ⟨0, 7, "Salt"⟩ (by decide) (by decide) (by decide)
      ⟨0, 7, "Flour"⟩ (by decide) (by decide) (by decide)
      (by decide) (by decide)⟩

/-- Witness for c4_lists_scoped_to_owner at a concrete store. -/
theorem c4_witness :
    (7 : UserId) ≠ 8 ∧
    ((∀ r ∈ RecipeViewSet.get_queryset 7 wStore, r.user = 7 ∧ r.user ≠ 8) ∧
     (∀ t ∈ TagViewSet.get_queryset 7 true wStore, t.user = 7 ∧ t.user ≠ 8) ∧
     (∀ t ∈ IngredientViewSet.get_queryset 7 true wStore, t.user = 7 ∧ t.user ≠ 8)) :=
  ⟨by decide, c4_lists_scoped_to_owner 7 8 true wStore (by decide)⟩

/-- Witness for c5_cross_owner_not_found: user 8 aims at pk 0, every
record of which belongs to user 7. -/
theorem c5_witness :
    (∀ r ∈ wStore.recipes, r.id = 0 → r.user ≠ 8) ∧
    (∀ t ∈ wStore.tags, t.id = 0 → t.user ≠ 8) ∧
    (∀ t ∈ wStore.ingredients, t.id = 0 → t.user ≠ 8) ∧
    (RecipeViewSet.get_object 8 0 wStore = none ∧
     RecipeViewSet.destroy 8 0 wStore = none ∧
     RecipeViewSet.patchRecipe 8 0 wRawUpd wStore = none ∧
     TagViewSet.get_object 8 0 wStore = none ∧
     TagViewSet.destroy 8 0 wStore = none ∧
     IngredientViewSet.get_object 8 0 wStore = none ∧
     IngredientViewSet.destroy 8 0 wStore = none) :=
  ⟨by decide, by decide, by decide,
    c5_cross_owner_not_found 8 0 wRawUpd wStore (by decide) (by decide) (by decide)⟩

/-- Witness for c6_duplicate_names_single_entry with the name Salt
requested twice. -/
theorem c6_witness :
    wCreDup.tags = some ["Salt", "Salt"] ∧ wUpdDup.tags = some ["Salt", "Salt"] ∧
    1 < (["Salt", "Salt"] : List String).count "Salt" ∧
    EntsOk wStore.tags wStore.nextTagId ∧
    ((relEntriesFor 7 "Salt" (RecipeSerializer.create 7 wCreDup wStore).1.tags
        (RecipeSerializer.create 7 wCreDup wStore).2.tags).length = 1 ∧
     (relEntriesFor 7 "Salt" (RecipeSerializer.update 7 wUpdDup wRecipe wStore).1.tags
        (RecipeSerializer.update 7 wUpdDup wRecipe wStore).2.tags).length = 1) :=
  ⟨by decide, by decide, by decide, by decide,
    c6_duplicate_names_single_entry 7 ["Salt", "Salt"] "Salt" wCreDup wUpdDup
      wRecipe wStore (by decide) (by decide) (by decide) (by decide)⟩

/-- Witness for c8_owner_server_assigned: both raw payloads carry the
foreign owner value 9, the authenticated user is 7. -/
theorem c8_witness :
    (wStore.recipes.map Recipe.id).Nodup ∧ wRecipe ∈ wStore.recipes ∧
    ((RecipeViewSet.performCreate 7 wRawCre wStore).1.user = 7 ∧
     (RecipeSerializer.update 7 (validateUpdate wRawUpd) wRecipe wStore).1.user =
       wRecipe.user ∧
     (RecipeSerializer.update 7 (validateUpdate wRawUpd) wRecipe wStore).2.recipes.map
         (fun y => (y.id, y.user)) = wStore.recipes.map (fun y => (y.id, y.user))) :=
  ⟨by decide, by decide,
    c8_owner_server_assigned 7 wRawCre wRawUpd wRecipe wStore (by decide) (by decide)⟩

/-- Witness for c9_update_frame: the all-absent payload leaves every field
unchanged. -/
theorem c9_witness :
    (RecipeSerializer.update 7 wUpdNone wRecipe wStore).1.title = wRecipe.title ∧
    (RecipeSerializer.update 7 wUpdNone wRecipe wStore).1.time_minutes =
      wRecipe.time_minutes ∧
    (RecipeSerializer.update 7 wUpdNone wRecipe wStore).1.price = wRecipe.price ∧
    (RecipeSerializer.update 7 wUpdNone wRecipe wStore).1.link = wRecipe.link ∧
    (RecipeSerializer.update 7 wUpdNone wRecipe wStore).1.description =
      wRecipe.description ∧
    (RecipeSerializer.update 7 wUpdNone wRecipe wStore).1.tags = wRecipe.tags ∧
    (RecipeSerializer.update 7 wUpdNone wRecipe wStore).1.ingredients =
      wRecipe.ingredients ∧
    (RecipeSerializer.update 7 wUpdNone wRecipe wStore).1.user = wRecipe.user ∧
    (RecipeSerializer.update 7 wUpdNone wRecipe wStore).1.id = wRecipe.id :=
  ⟨(c9_update_frame 7 wUpdNone wRecipe wStore).1 rfl,
   (c9_update_frame 7 wUpdNone wRecipe wStore).2.1 rfl,
   (c9_update_frame 7 wUpdNone wRecipe wStore).2.2.1 rfl,
   (c9_update_frame 7 wUpdNone wRecipe wStore).2.2.2.1 rfl,
   (c9_update_frame 7 wUpdNone wRecipe wStore).2.2.2.2.1 rfl,
   (c9_update_frame 7 wUpdNone wRecipe wStore).2.2.2.2.2.1 rfl,
   (c9_update_frame 7 wUpdNone wRecipe wStore).2.2.2.2.2.2.1 rfl,
   (c9_update_frame 7 wUpdNone wRecipe wStore).2.2.2.2.2.2.2.1,
   (c9_update_frame 7 wUpdNone wRecipe wStore).2.2.2.2.2.2.2.2⟩

/-- Witness for c10_create_absent_fields with both optional fields
absent. -/
theorem c10_witness :
    wCreNone.tags = none ∧ wCreNone.ingredients = none ∧
    ((RecipeSerializer.create 7 wCreNone wStore).1.tags = [] ∧
     (RecipeSerializer.create 7 wCreNone wStore).1.ingredients = [] ∧
     (RecipeSerializer.create 7 wCreNone wStore).2.tags = wStore.tags ∧
     (RecipeSerializer.create 7 wCreNone wStore).2.ingredients = wStore.ingredients ∧
     (RecipeSerializer.create 7 wCreNone wStore).1 ∈
       (RecipeSerializer.create 7 wCreNone wStore).2.recipes) :=
  ⟨by decide, by decide,
    c10_create_absent_fields 7 wCreNone wStore (by decide) (by decide)⟩

end RecipeApp
